import Mathlib

/-!
Verification development for the @eeko/sdk template core: the
TemplateEngine (src/template/engine), the validation utilities
(src/template/validation) and the field-config loader
(src/template/loader).  JavaScript strings are embedded as Lean
strings (sequences of Unicode scalar values), JavaScript regex
replacement as explicit character scanners with the same
left-to-right, leftmost-match, no-rescan-of-replacement semantics.
-/

/-- Values a configuration object can hold.  `undef` stands for the
JavaScript value `undefined`, which a key can be explicitly bound to. -/
inductive JSValue where
  | str (s : String)
  | num (n : Int)
  | boolean (b : Bool)
  | null
  | undef
deriving DecidableEq

/-- Stringification `String(value)` as used by processWithEscape. -/
def jsToString : JSValue → String
  | JSValue.str s => s
  | JSValue.num n => toString n
  | JSValue.boolean b => if b then "true" else "false"
  | JSValue.null => "null"
  | JSValue.undef => "undefined"

/-- A configuration object: its own properties, in insertion order.
Mirrors `Record<string, unknown>`; keys are unique in a JS object. -/
def Config := List (String × JSValue)

/-- Own-property lookup on a configuration object. -/
def lookupCfg : Config → String → Option JSValue
  | [], _ => none
  | (k', v) :: rest, k => if k = k' then some v else lookupCfg rest k

/-- The `Object.hasOwn(this.config, key)` test in safeGet. -/
def hasOwn (cfg : Config) (k : String) : Bool :=
  (lookupCfg cfg k).isSome

/-- TemplateEngine.safeGet: `Object.hasOwn` guard, then property read.
A missing key and a key bound to `undefined` both yield `undef`. -/
def safeGet (cfg : Config) (k : String) : JSValue :=
  match lookupCfg cfg k with
  | some v => v
  | none => JSValue.undef

/-- A `\w` word character as in JavaScript regexes: [A-Za-z0-9_]. -/
def isWordChar (c : Char) : Bool :=
  (('a' ≤ c && c ≤ 'z') || ('A' ≤ c && c ≤ 'Z') ||
   ('0' ≤ c && c ≤ '9') || c = '_')

/-!
The two replacement passes of processWithEscape are
`result.replace(re, cb)` for the global regexes `\{(\w+)\}` and
`\{\{(\w+)\}\}`.  They are embedded as character scanners that walk the
input left to right, find each leftmost match, replace it by the
callback result without rescanning that result, and resume after the
match; on a failed match attempt the scan advances one position.  The
callback returns `some replacement` when the key resolves and `none`
when the original matched text is kept (the `value === undefined`
branch of processWithEscape).
-/

/-- Scanner for the single-brace pass `\{(\w+)\}`.  The state is `none`
outside a candidate match and `some seen` after an opening brace,
where `seen` holds the word characters read so far, reversed. -/
def rrSingleAux (f : String → Option String) :
    Option (List Char) → List Char → List Char
  | none, [] => []
  | some seen, [] => '{' :: seen.reverse
  | none, c :: rest =>
    if c = '{' then rrSingleAux f (some []) rest
    else c :: rrSingleAux f none rest
  | some seen, c :: rest =>
    if isWordChar c then rrSingleAux f (some (c :: seen)) rest
    else if c = '}' then
      if seen = [] then '{' :: '}' :: rrSingleAux f none rest
      else
        (match f (String.mk seen.reverse) with
         | some r => r.data
         | none => '{' :: (seen.reverse ++ ['}'])) ++ rrSingleAux f none rest
    else if c = '{' then
      ('{' :: seen.reverse) ++ rrSingleAux f (some []) rest
    else
      ('{' :: seen.reverse) ++ (c :: rrSingleAux f none rest)

/-- One global replacement pass of `\{(\w+)\}`. -/
def rrSingle (f : String → Option String) (l : List Char) : List Char :=
  rrSingleAux f none l

/-- Scanner state for the double-brace pass `\{\{(\w+)\}\}`: outside a
candidate, after one opening brace, inside the identifier, or after
the first closing brace. -/
inductive DMode where
  | norm
  | one
  | ident (seen : List Char)
  | close (seen : List Char)

/-- Scanner for the double-brace pass `\{\{(\w+)\}\}`.  A failed match
attempt resumes scanning one position after where it began; since a
match can only begin at an opening brace, only braces need care. -/
def rrDoubleAux (f : String → Option String) :
    DMode → List Char → List Char
  | DMode.norm, [] => []
  | DMode.one, [] => ['{']
  | DMode.ident seen, [] => '{' :: '{' :: seen.reverse
  | DMode.close seen, [] => '{' :: '{' :: (seen.reverse ++ ['}'])
  | DMode.norm, c :: rest =>
    if c = '{' then rrDoubleAux f DMode.one rest
    else c :: rrDoubleAux f DMode.norm rest
  | DMode.one, c :: rest =>
    if c = '{' then rrDoubleAux f (DMode.ident []) rest
    else '{' :: c :: rrDoubleAux f DMode.norm rest
  | DMode.ident seen, c :: rest =>
    if isWordChar c then rrDoubleAux f (DMode.ident (c :: seen)) rest
    else if c = '}' then
      if seen = [] then '{' :: '{' :: '}' :: rrDoubleAux f DMode.norm rest
      else rrDoubleAux f (DMode.close seen) rest
    else if c = '{' then
      if seen = [] then '{' :: rrDoubleAux f (DMode.ident []) rest
      else ('{' :: '{' :: seen.reverse) ++ rrDoubleAux f DMode.one rest
    else ('{' :: '{' :: seen.reverse) ++ (c :: rrDoubleAux f DMode.norm rest)
  | DMode.close seen, c :: rest =>
    if c = '}' then
      (match f (String.mk seen.reverse) with
       | some r => r.data
       | none => '{' :: '{' :: (seen.reverse ++ ['}', '}'])) ++
        rrDoubleAux f DMode.norm rest
    else if c = '{' then
      ('{' :: '{' :: (seen.reverse ++ ['}'])) ++ rrDoubleAux f DMode.one rest
    else
      ('{' :: '{' :: (seen.reverse ++ ['}'])) ++
        (c :: rrDoubleAux f DMode.norm rest)

/-- One global replacement pass of `\{\{(\w+)\}\}`. -/
def rrDouble (f : String → Option String) (l : List Char) : List Char :=
  rrDoubleAux f DMode.norm l

/-- The replacement callback of processWithEscape: resolve the key via
safeGet, keep the match when the value is `undefined`, otherwise
stringify and escape. -/
def substFn (cfg : Config) (esc : String → String) (k : String) :
    Option String :=
  match safeGet cfg k with
  | JSValue.undef => none
  | v => some (esc (jsToString v))

/-- TemplateEngine.processWithEscape: the double-brace pass runs first,
then the single-brace pass runs on its result. -/
def processWithEscape (cfg : Config) (esc : String → String)
    (template : String) : String :=
  String.mk (rrSingle (substFn cfg esc) (rrDouble (substFn cfg esc) template.data))

/-- Replace every occurrence of the character `c` by the string `r`,
one pass, left to right: `str.replace(/c/g, r)`. -/
def replaceCharL (c : Char) (r : List Char) : List Char → List Char
  | [] => []
  | x :: xs => (if x = c then r else [x]) ++ replaceCharL c r xs

/-- TemplateEngine.escapeHTML: the five chained replacements, ampersand
first. -/
def escapeHTML (s : String) : String :=
  String.mk
    (replaceCharL '\'' "&#x27;".data
      (replaceCharL '"' "&quot;".data
        (replaceCharL '>' "&gt;".data
          (replaceCharL '<' "&lt;".data
            (replaceCharL '&' "&amp;".data s.data)))))

/-- A character of the JavaScript regex class `\\s`: ASCII whitespace,
no-break space, ogham space mark, the U+2000 to U+200A spaces, line and
paragraph separators, narrow no-break space, medium mathematical space,
ideographic space and the byte-order mark. -/
def isJSWhitespace (c : Char) : Bool :=
  c = ' ' || c = '\t' || c = '\n' || c = '\x0b' || c = '\x0c' || c = '\r' ||
  c = Char.ofNat 0xa0 || c = Char.ofNat 0x1680 ||
  (Char.ofNat 0x2000 ≤ c && c ≤ Char.ofNat 0x200a) ||
  c = Char.ofNat 0x2028 || c = Char.ofNat 0x2029 ||
  c = Char.ofNat 0x202f || c = Char.ofNat 0x205f ||
  c = Char.ofNat 0x3000 || c = Char.ofNat 0xfeff

/-- The escapeCSS whitelist `[a-zA-Z0-9#(),.\-\s%]`. -/
def isCSSAllowed (c : Char) : Bool :=
  (('a' ≤ c && c ≤ 'z') || ('A' ≤ c && c ≤ 'Z') || ('0' ≤ c && c ≤ '9') ||
   c = '#' || c = '(' || c = ')' || c = ',' || c = '.' || c = '-' ||
   c = '%' || isJSWhitespace c)

/-- One lowercase hexadecimal digit, as produced by `toString(16)`. -/
def hexDigitChar (n : Nat) : Char :=
  if n < 10 then Char.ofNat (48 + n) else Char.ofNat (87 + n)

/-- Fuelled hexadecimal rendering; the fuel bounds the digit count. -/
def toHexAux : Nat → Nat → List Char
  | 0, _ => []
  | fuel + 1, n =>
    if n < 16 then [hexDigitChar n]
    else toHexAux fuel (n / 16) ++ [hexDigitChar (n % 16)]

/-- `n.toString(16)`: lowercase hexadecimal, no padding.  A fuel of
`n + 1` always suffices since the digit count is at most `n + 1`. -/
def toHex (n : Nat) : String :=
  String.mk (toHexAux (n + 1) n)

/-- The replacement of one disallowed character in escapeCSS:
backslash, hexadecimal code, trailing space. -/
def cssEscChar (c : Char) : List Char :=
  '\\' :: ((toHex c.toNat).data ++ [' '])

/-- The single regex pass of escapeCSS on the character list. -/
def escapeCSSL : List Char → List Char
  | [] => []
  | c :: rest =>
    (if isCSSAllowed c then [c] else cssEscChar c) ++ escapeCSSL rest

/-- TemplateEngine.escapeCSS: whitelist pass over the whole string. -/
def escapeCSS (s : String) : String :=
  String.mk (escapeCSSL s.data)

/-- The first seven chained replacements of escapeJS, in source order:
backslash, single quote, double quote, newline, carriage return,
line separator, paragraph separator. -/
def escapeJSSeven (l : List Char) : List Char :=
  replaceCharL (Char.ofNat 0x2029) "\\u2029".data
    (replaceCharL (Char.ofNat 0x2028) "\\u2028".data
      (replaceCharL '\r' "\\r".data
        (replaceCharL '\n' "\\n".data
          (replaceCharL '"' "\\\"".data
            (replaceCharL '\'' "\\'".data
              (replaceCharL '\\' "\\\\".data l))))))

/-- The eighth replacement of escapeJS: every occurrence of the
two-character pattern `</` becomes `<\/`. -/
def replaceLtSlashL : List Char → List Char
  | [] => []
  | [c] => [c]
  | c :: d :: rest =>
    if c = '<' ∧ d = '/' then
      '<' :: '\\' :: '/' :: replaceLtSlashL rest
    else c :: replaceLtSlashL (d :: rest)

/-- TemplateEngine.escapeJS: the seven character replacements followed
by the `</` replacement, each pass on the previous pass's output. -/
def escapeJS (s : String) : String :=
  String.mk (replaceLtSlashL (escapeJSSeven s.data))

/-- TemplateEngine.processHTML. -/
def processHTML (cfg : Config) (html : String) : String :=
  processWithEscape cfg escapeHTML html

/-- TemplateEngine.processCSS. -/
def processCSS (cfg : Config) (css : String) : String :=
  processWithEscape cfg escapeCSS css

/-- TemplateEngine.processJS. -/
def processJS (cfg : Config) (js : String) : String :=
  processWithEscape cfg escapeJS js

/-- TemplateEngine.processRaw: identity escaper. -/
def processRaw (cfg : Config) (template : String) : String :=
  processWithEscape cfg (fun str => str) template

/-- An ASCII decimal digit, the regex class `\d`. -/
def isAsciiDigit (c : Char) : Bool :=
  '0' ≤ c && c ≤ '9'

/-- A hexadecimal digit, the regex class [0-9A-Fa-f]. -/
def isHexDigitChar (c : Char) : Bool :=
  isAsciiDigit c || ('a' ≤ c && c ≤ 'f') || ('A' ≤ c && c ≤ 'F')

/-- ASCII lowercasing of one character, as `toLowerCase()` acts on the
ASCII range (every named color is ASCII). -/
def lowerChar (c : Char) : Char :=
  if 'A' ≤ c && c ≤ 'Z' then Char.ofNat (c.toNat + 32) else c

/-- `color.toLowerCase()` on the embedded string. -/
def lowerStr (s : String) : String :=
  String.mk (s.data.map lowerChar)

/-- The fixed allow-list of named colors in isValidColor, verbatim from
the source, including the entry spelled `currentColor`. -/
def namedColors : List String :=
  ["transparent", "black", "white", "red", "green", "blue", "yellow",
   "orange", "purple", "pink", "gray", "grey", "inherit", "currentColor"]

/-- The hex test `^#([0-9A-Fa-f]{3}|[0-9A-Fa-f]{6}|[0-9A-Fa-f]{8})$`. -/
def hexColorMatch (s : String) : Bool :=
  match s.data with
  | [] => false
  | c :: rest =>
    c = '#' && rest.all isHexDigitChar &&
      (rest.length = 3 || rest.length = 6 || rest.length = 8)

/-- Consume an exact literal character sequence. -/
def eatLit : List Char → List Char → Option (List Char)
  | [], l => some l
  | _ :: _, [] => none
  | p :: ps, c :: cs => if c = p then eatLit ps cs else none

/-- Consume `\s*`. -/
def eatWS (l : List Char) : List Char :=
  l.dropWhile isJSWhitespace

/-- Consume one exact character. -/
def eatChar (c : Char) : List Char → Option (List Char)
  | [] => none
  | x :: r => if x = c then some r else none

/-- Consume `\d{1,3}` (greedy; a run of four or more digits can never
match, since backtracking would leave a digit where `\s*,` or `%` is
required). -/
def eatD13 (l : List Char) : Option (List Char) :=
  let run := l.takeWhile isAsciiDigit
  if 1 ≤ run.length && run.length ≤ 3 then some (l.dropWhile isAsciiDigit)
  else none

/-- Consume `\s*\d{1,3}\s*,`. -/
def eatNumComma (l : List Char) : Option (List Char) :=
  (eatD13 (eatWS l)).bind (fun r => eatChar ',' (eatWS r))

/-- Consume `\s*\d{1,3}%\s*,`. -/
def eatPctComma (l : List Char) : Option (List Char) :=
  ((eatD13 (eatWS l)).bind (eatChar '%')).bind
    (fun r => eatChar ',' (eatWS r))

/-- Consume the optional alpha group `(,\s*[\d.]+\s*)?`: taken exactly
when a comma is next, since otherwise the following `\)` must match. -/
def eatAlphaGroup (l : List Char) : Option (List Char) :=
  match l with
  | [] => some []
  | c :: r =>
    if c = ',' then
      let r2 := eatWS r
      let run := r2.takeWhile (fun x => isAsciiDigit x || x = '.')
      if run = [] then none
      else some (eatWS (r2.dropWhile (fun x => isAsciiDigit x || x = '.')))
    else some l

/-- The test `^rgba?\(\s*\d{1,3}\s*,\s*\d{1,3}\s*,\s*\d{1,3}\s*(,\s*[\d.]+\s*)?\)$`. -/
def rgbMatch (s : String) : Bool :=
  match eatLit "rgb".data s.data with
  | none => false
  | some l0 =>
    let l1 := match l0 with
      | [] => l0
      | x :: r => if x = 'a' then r else l0
    match eatChar '(' l1 with
    | none => false
    | some l2 =>
      match eatNumComma l2 with
      | none => false
      | some l3 =>
        match eatNumComma l3 with
        | none => false
        | some l4 =>
          match eatD13 (eatWS l4) with
          | none => false
          | some l5 =>
            match eatAlphaGroup (eatWS l5) with
            | none => false
            | some l6 => l6 == [')']

/-- The test `^hsla?\(\s*\d{1,3}\s*,\s*\d{1,3}%\s*,\s*\d{1,3}%\s*(,\s*[\d.]+\s*)?\)$`. -/
def hslMatch (s : String) : Bool :=
  match eatLit "hsl".data s.data with
  | none => false
  | some l0 =>
    let l1 := match l0 with
      | [] => l0
      | x :: r => if x = 'a' then r else l0
    match eatChar '(' l1 with
    | none => false
    | some l2 =>
      match eatNumComma l2 with
      | none => false
      | some l3 =>
        match eatPctComma l3 with
        | none => false
        | some l4 =>
          match (eatD13 (eatWS l4)).bind (eatChar '%') with
          | none => false
          | some l5 =>
            match eatAlphaGroup (eatWS l5) with
            | none => false
            | some l6 => l6 == [')']

/-- isValidColor from src/template/validation: hex, rgb/rgba, hsl/hsla,
then membership of `color.toLowerCase()` in the named-color list. -/
def isValidColor (color : String) : Bool :=
  if color = "" then false
  else if hexColorMatch color then true
  else if rgbMatch color then true
  else if hslMatch color then true
  else namedColors.contains (lowerStr color)

/-- A parsed JSON document, the output domain of `JSON.parse`. -/
inductive JSON where
  | null
  | boolean (b : Bool)
  | num (n : Int)
  | str (s : String)
  | arr (elems : List JSON)
  | obj (members : List (String × JSON))

/-- Member lookup in a JSON object member list. -/
def mLookup : List (String × JSON) → String → Option JSON
  | [], _ => none
  | (k', v) :: rest, k => if k = k' then some v else mLookup rest k

/-- JavaScript truthiness of a JSON value. -/
def jsTruthy : JSON → Bool
  | JSON.null => false
  | JSON.boolean b => b
  | JSON.num n => n != 0
  | JSON.str s => s != ""
  | JSON.arr _ => true
  | JSON.obj _ => true

/-- Whether `typeof` the value is the string `'object'`: true for null,
arrays and plain objects. -/
def jsTypeofIsObject : JSON → Bool
  | JSON.null => true
  | JSON.arr _ => true
  | JSON.obj _ => true
  | _ => false

/-- Truthiness of a possibly-undefined member (`undefined` is falsy). -/
def undefTruthy : Option JSON → Bool
  | none => false
  | some j => jsTruthy j

/-- `typeof member === 'object'`; false for a missing member, whose
`typeof` is `'undefined'`. -/
def typeofObjOpt : Option JSON → Bool
  | none => false
  | some j => jsTypeofIsObject j

/-- `Array.isArray` on a possibly-undefined member. -/
def isArrOpt : Option JSON → Bool
  | some (JSON.arr _) => true
  | _ => false

/-- JavaScript property read `j[k]`: reading a property of `null`
throws a TypeError, an object yields the member or `undefined`, and any
other value (boxed primitive, array) yields `undefined` for the member
names used by the loader. -/
def jsMember (j : JSON) (k : String) : Except String (Option JSON) :=
  match j with
  | JSON.null =>
    Except.error ("Cannot read properties of null (reading '" ++ k ++ "')")
  | JSON.obj ms => Except.ok (mLookup ms k)
  | _ => Except.ok none

/-- JavaScript property assignment on an object member list: an
existing key keeps its position, a new key is appended. -/
def setMember : List (String × JSON) → String → JSON → List (String × JSON)
  | [], k, v => [(k, v)]
  | (k', v') :: rest, k, v =>
    if k = k' then (k, v) :: rest else (k', v') :: setMember rest k v

/-- Property assignment `j[k] = v` (only ever reached on objects). -/
def jsonSet (j : JSON) (k : String) (v : JSON) : JSON :=
  match j with
  | JSON.obj ms => JSON.obj (setMember ms k v)
  | other => other

/-- Loader failure taxonomy. -/
inductive LoadErr where
  | traversal
  | notFound
  | parseError (msg : String)
  | structural (msg : String)
  | typeError (msg : String)
deriving DecidableEq

/-- One of the two `if (!parsed.x || typeof parsed.x !== 'object')
parsed.x = \x7b\x7d` statements of loadFieldConfig. -/
def ensureCfgMember (parsed : JSON) (k : String) : JSON :=
  match jsMember parsed k with
  | Except.error _ => parsed
  | Except.ok m =>
    if !(undefTruthy m) || !(typeofObjOpt m) then jsonSet parsed k (JSON.obj [])
    else parsed

/-- The part of loadFieldConfig after the file has been read, applied
to the outcome of `JSON.parse` on the file content: a parse failure is
rethrown as a distinct parse error, a missing or non-array `fields`
member is a structural error, and the two config members are defaulted
to empty objects when falsy or not of object type. -/
def loadFieldConfigPure (pr : Except String JSON) : Except LoadErr JSON :=
  match pr with
  | Except.error msg =>
    Except.error (LoadErr.parseError ("Invalid JSON in field.json: " ++ msg))
  | Except.ok parsed =>
    match jsMember parsed "fields" with
    | Except.error m => Except.error (LoadErr.typeError m)
    | Except.ok fo =>
      if !(undefTruthy fo) || !(isArrOpt fo) then
        Except.error
          (LoadErr.structural "Invalid field.json: missing or invalid \"fields\" array")
      else
        Except.ok (ensureCfgMember (ensureCfgMember parsed "globalConfig") "variantConfig")

/-- Split a path on `/`, dropping empty segments; the accumulator holds
the current segment reversed. -/
def splitSegsAux : List Char → List Char → List (List Char)
  | cur, [] => if cur = [] then [] else [cur.reverse]
  | cur, c :: rest =>
    if c = '/' then
      if cur = [] then splitSegsAux [] rest
      else cur.reverse :: splitSegsAux [] rest
    else splitSegsAux (c :: cur) rest

/-- Path segments of a string path. -/
def splitSegsL (l : List Char) : List (List Char) :=
  splitSegsAux [] l

/-- One step of lexical path normalization: `.` is dropped, `..` pops
the last segment (a no-op at the root), anything else is kept. -/
def normStep (acc : List (List Char)) (seg : List Char) : List (List Char) :=
  if seg = ['.'] then acc
  else if seg = ['.', '.'] then acc.dropLast
  else acc ++ [seg]

/-- Lexical normalization of a segment list, as `path.resolve` performs
after concatenation. -/
def normSegs (l : List (List Char)) : List (List Char) :=
  l.foldl normStep []

/-- Join segments with `/` separators. -/
def joinSegsL : List (List Char) → List Char
  | [] => []
  | s :: rest =>
    match rest with
    | [] => s
    | _ :: _ => s ++ ('/' :: joinSegsL rest)

/-- Render an absolute path from its segments; no segments is `/`. -/
def joinAbsL (segs : List (List Char)) : List Char :=
  '/' :: joinSegsL segs

/-- Lexical resolution of one path: split, normalize, rejoin.  This is
`path.resolve(p)` for an absolute `p`; a relative path is resolved
against a root working directory.  Resolution is purely lexical and
never consults the filesystem, so symlinks are invisible to it. -/
def resolveL (l : List Char) : List Char :=
  joinAbsL (normSegs (splitSegsL l))

/-- `path.resolve(p)` on embedded strings. -/
def resolvePath (s : String) : String :=
  String.mk (resolveL s.data)

/-- `path.resolve(base, rel)`: an absolute `rel` wins outright,
otherwise `rel` is appended to `base` and the result normalized. -/
def resolveFrom (base rel : String) : String :=
  match rel.data with
  | [] => resolvePath base
  | c :: _ =>
    if c = '/' then resolvePath rel
    else String.mk (joinAbsL (normSegs (splitSegsL base.data ++ splitSegsL rel.data)))

/-- validatePathWithinBase from src/template/loader: resolve both
paths, then accept exactly when the target equals the base or extends
`base + '/'`. -/
def validatePathWithinBase (basePath targetPath : String) : Bool :=
  let rb := resolveL basePath.data
  let rt := resolveL targetPath.data
  (rb ++ ['/']).isPrefixOf rt || rt == rb

/-- A filesystem entry: a regular file with content, or a symbolic link
to an absolute target path. -/
inductive FSEntry (α : Type) where
  | file (content : α)
  | symlink (target : String)

/-- A filesystem: resolved absolute paths to entries. -/
def FS (α : Type) :=
  List (String × FSEntry α)

/-- Path lookup in a filesystem. -/
def fsLookup {α : Type} : FS α → String → Option (FSEntry α)
  | [], _ => none
  | (p, e) :: rest, q => if q = p then some e else fsLookup rest q

/-- `readFile`: opening a path follows symbolic links to wherever they
point; the first component records every path the read touches, the
second is the content reached, `none` on a missing file or a link
cycle. -/
def readFS {α : Type} (fs : FS α) : Nat → String → List String × Option α
  | 0, p => ([p], none)
  | fuel + 1, p =>
    match fsLookup fs p with
    | some (FSEntry.file c) => ([p], some c)
    | some (FSEntry.symlink t) =>
      let r := readFS fs fuel t
      (p :: r.1, r.2)
    | none => ([p], none)

/-- loadFieldConfig from src/template/loader, over the filesystem
model: resolve the directory, resolve `field.json` against it, check
containment, then read (following symlinks) and process the parsed
content.  File contents are represented by their `JSON.parse` outcome,
the only thing loadFieldConfig uses. -/
def loadFieldConfigFS (fs : FS (Except String JSON)) (fuel : Nat)
    (templateDir : String) : List String × Except LoadErr JSON :=
  if validatePathWithinBase (resolvePath templateDir)
      (resolveFrom (resolvePath templateDir) "field.json") then
    match readFS fs fuel (resolveFrom (resolvePath templateDir) "field.json") with
    | (reads, none) => (reads, Except.error LoadErr.notFound)
    | (reads, some pr) => (reads, loadFieldConfigPure pr)
  else ([], Except.error LoadErr.traversal)

/-- loadTemplateFiles from src/template/loader: resolve the three fixed
file names, validate all three, require `index.html`, tolerate a
missing `style.css` and `script.js`. -/
def loadTemplateFilesFS (fs : FS String) (fuel : Nat) (templateDir : String) :
    List String × Except LoadErr (String × Option String × Option String) :=
  if validatePathWithinBase (resolvePath templateDir)
        (resolveFrom (resolvePath templateDir) "index.html") &&
      validatePathWithinBase (resolvePath templateDir)
        (resolveFrom (resolvePath templateDir) "style.css") &&
      validatePathWithinBase (resolvePath templateDir)
        (resolveFrom (resolvePath templateDir) "script.js") then
    match readFS fs fuel (resolveFrom (resolvePath templateDir) "index.html") with
    | (r1, none) => (r1, Except.error LoadErr.notFound)
    | (r1, some html) =>
      (r1 ++ (readFS fs fuel (resolveFrom (resolvePath templateDir) "style.css")).1 ++
        (readFS fs fuel (resolveFrom (resolvePath templateDir) "script.js")).1,
       Except.ok (html,
         (readFS fs fuel (resolveFrom (resolvePath templateDir) "style.css")).2,
         (readFS fs fuel (resolveFrom (resolvePath templateDir) "script.js")).2))
  else ([], Except.error LoadErr.traversal)

/-- Specification-side one-pass markup escaper: the per-character entity
map the five chained replacements of escapeHTML are intended to
implement. -/
def htmlEscCharSpec (c : Char) : List Char :=
  if c = '&' then "&amp;".data
  else if c = '<' then "&lt;".data
  else if c = '>' then "&gt;".data
  else if c = '"' then "&quot;".data
  else if c = '\'' then "&#x27;".data
  else [c]

/-- Specification-side per-character map of the first seven escapeJS
replacements. -/
def jsMapChar (c : Char) : List Char :=
  if c = '\\' then "\\\\".data
  else if c = '\'' then "\\'".data
  else if c = '"' then "\\\"".data
  else if c = '\n' then "\\n".data
  else if c = '\r' then "\\r".data
  else if c = Char.ofNat 0x2028 then "\\u2028".data
  else if c = Char.ofNat 0x2029 then "\\u2029".data
  else [c]

/-- Specification-side one-pass script escaper: a single left-to-right
scan that rewrites `</` and maps every other character through
jsMapChar, never revisiting its own output. -/
def jsOnePass : List Char → List Char
  | [] => []
  | [c] => jsMapChar c
  | c :: d :: rest =>
    if c = '<' ∧ d = '/' then '<' :: '\\' :: '/' :: jsOnePass rest
    else jsMapChar c ++ jsOnePass (d :: rest)

/-- Modelled from the spec: the properties every plain JavaScript
object inherits from Object.prototype; a configuration lookup that fell
through the prototype chain could reach these even though they are own
properties of no configuration. -/
def objectPrototypeKeys : List String :=
  ["constructor", "hasOwnProperty", "isPrototypeOf",
   "propertyIsEnumerable", "toLocaleString", "toString", "valueOf"]

def exScanCfg : Config := [("a", JSValue.str "\x7bb\x7d"), ("b", JSValue.str "Z")]

def exGoalCfg : Config :=
  [("goalTitle", JSValue.str "Member <Goal>"), ("goalTarget", JSValue.num 100)]

def exCssCfg : Config := [("backgroundColor", JSValue.str "#1a1a2e")]

def exJsCfg : Config := [("q", JSValue.str "it's"), ("x", JSValue.str "</script>")]

def exSymlinkFS : FS (Except String JSON) :=
  [("/base/field.json", FSEntry.symlink "/secret/creds"),
   ("/secret/creds", FSEntry.file (Except.error "Unexpected token"))]

def exArrDoc : Except String JSON :=
  Except.ok (JSON.obj [("fields", JSON.arr []), ("globalConfig", JSON.arr [])])

def exceptIsOk {ε α : Type} : Except ε α → Bool
  | Except.ok _ => true
  | Except.error _ => false

def resultMember (r : Except LoadErr JSON) (k : String) : Option JSON :=
  match r with
  | Except.ok (JSON.obj ms) => mLookup ms k
  | _ => none

def exUndefCfg : Config := [("ghost", JSValue.undef)]

theorem strMk_data (s : String) : String.mk s.data = s := rfl

theorem strData_append (a b : String) : (a ++ b).data = a.data ++ b.data := rfl

theorem rrSingleAux_none_cons_ne (f : String → Option String) (c : Char)
    (l : List Char) (h : c ≠ '{') :
    rrSingleAux f none (c :: l) = c :: rrSingleAux f none l := by
  simp [rrSingleAux, h]

theorem rrSingleAux_none_append_nolb (f : String → Option String)
    (p q : List Char) (h : ∀ c ∈ p, c ≠ '{') :
    rrSingleAux f none (p ++ q) = p ++ rrSingleAux f none q := by
  induction p with
  | nil => rfl
  | cons c rest ih =>
    rw [List.cons_append, rrSingleAux_none_cons_ne f c _ (h c (by simp)),
      ih (fun d hd => h d (by simp [hd]))]
    simp

theorem rrSingleAux_none_nolb (f : String → Option String)
    (l : List Char) (h : ∀ c ∈ l, c ≠ '{') :
    rrSingleAux f none l = l := by
  have h2 := rrSingleAux_none_append_nolb f l [] h
  simpa [show rrSingleAux f none [] = [] from rfl] using h2

theorem rrSingleAux_run (f : String → Option String) (k : List Char)
    (seen : List Char) (q : List Char) (hk : ∀ c ∈ k, isWordChar c = true) :
    rrSingleAux f (some seen) (k ++ q) =
      rrSingleAux f (some (k.reverse ++ seen)) q := by
  induction k generalizing seen with
  | nil => simp
  | cons c k' ih =>
    have hc := hk c (by simp)
    rw [List.cons_append]
    show rrSingleAux f (some seen) (c :: (k' ++ q)) = _
    rw [show rrSingleAux f (some seen) (c :: (k' ++ q)) =
        rrSingleAux f (some (c :: seen)) (k' ++ q) by simp [rrSingleAux, hc]]
    rw [ih (c :: seen) (fun d hd => hk d (by simp [hd]))]
    simp

theorem rrSingleAux_tok (f : String → Option String) (k : List Char)
    (q : List Char) (hne : k ≠ []) (hk : ∀ c ∈ k, isWordChar c = true) :
    rrSingleAux f none ('{' :: (k ++ '}' :: q)) =
      (match f (String.mk k) with
       | some r => r.data
       | none => '{' :: (k ++ ['}'])) ++ rrSingleAux f none q := by
  rw [show rrSingleAux f none ('{' :: (k ++ '}' :: q)) =
      rrSingleAux f (some []) (k ++ '}' :: q) by simp [rrSingleAux]]
  rw [rrSingleAux_run f k [] ('}' :: q) hk]
  have hw : isWordChar '}' = false := by decide
  have hrev : k.reverse ≠ [] := by simpa using hne
  simp only [rrSingleAux, hw, Bool.false_eq_true, if_false, if_neg hrev,
    List.append_nil, List.reverse_reverse, if_pos rfl]
  rfl

theorem word_ne_lb {c : Char} (h : isWordChar c = true) : c ≠ '{' := by
  intro he
  subst he
  simp [isWordChar] at h

theorem word_ne_rb {c : Char} (h : isWordChar c = true) : c ≠ '}' := by
  intro he
  subst he
  simp [isWordChar] at h

theorem rrDoubleAux_norm_cons_ne (f : String → Option String) (c : Char)
    (l : List Char) (h : c ≠ '{') :
    rrDoubleAux f DMode.norm (c :: l) = c :: rrDoubleAux f DMode.norm l := by
  simp [rrDoubleAux, h]

theorem rrDoubleAux_norm_append_nolb (f : String → Option String)
    (p q : List Char) (h : ∀ c ∈ p, c ≠ '{') :
    rrDoubleAux f DMode.norm (p ++ q) = p ++ rrDoubleAux f DMode.norm q := by
  induction p with
  | nil => rfl
  | cons c rest ih =>
    rw [List.cons_append, rrDoubleAux_norm_cons_ne f c _ (h c (by simp)),
      ih (fun d hd => h d (by simp [hd]))]
    simp

theorem rrDoubleAux_norm_nolb (f : String → Option String)
    (l : List Char) (h : ∀ c ∈ l, c ≠ '{') :
    rrDoubleAux f DMode.norm l = l := by
  have h2 := rrDoubleAux_norm_append_nolb f l [] h
  simpa [show rrDoubleAux f DMode.norm [] = [] from rfl] using h2

theorem rrDoubleAux_run (f : String → Option String) (k : List Char)
    (seen : List Char) (q : List Char) (hk : ∀ c ∈ k, isWordChar c = true) :
    rrDoubleAux f (DMode.ident seen) (k ++ q) =
      rrDoubleAux f (DMode.ident (k.reverse ++ seen)) q := by
  induction k generalizing seen with
  | nil => simp
  | cons c k' ih =>
    have hc := hk c (by simp)
    rw [List.cons_append]
    rw [show rrDoubleAux f (DMode.ident seen) (c :: (k' ++ q)) =
        rrDoubleAux f (DMode.ident (c :: seen)) (k' ++ q) by simp [rrDoubleAux, hc]]
    rw [ih (c :: seen) (fun d hd => hk d (by simp [hd]))]
    simp

theorem rrDoubleAux_tok (f : String → Option String) (k : List Char)
    (q : List Char) (hne : k ≠ []) (hk : ∀ c ∈ k, isWordChar c = true) :
    rrDoubleAux f DMode.norm ('{' :: '{' :: (k ++ '}' :: '}' :: q)) =
      (match f (String.mk k) with
       | some r => r.data
       | none => '{' :: '{' :: (k ++ ['}', '}'])) ++ rrDoubleAux f DMode.norm q := by
  rw [show rrDoubleAux f DMode.norm ('{' :: '{' :: (k ++ '}' :: '}' :: q)) =
      rrDoubleAux f (DMode.ident []) (k ++ '}' :: '}' :: q) by simp [rrDoubleAux]]
  rw [rrDoubleAux_run f k [] ('}' :: '}' :: q) hk]
  have hw : isWordChar '}' = false := by decide
  have hrev : k.reverse ≠ [] := by simpa using hne
  rw [show rrDoubleAux f (DMode.ident (k.reverse ++ [])) ('}' :: '}' :: q) =
      rrDoubleAux f (DMode.close k.reverse) ('}' :: q) by
    simp [rrDoubleAux, hw, hrev]]
  simp only [rrDoubleAux, if_pos rfl, List.reverse_reverse]
  rfl

theorem rrDoubleAux_singletok (f : String → Option String) (k : List Char)
    (q : List Char) (hne : k ≠ []) (hk : ∀ c ∈ k, isWordChar c = true) :
    rrDoubleAux f DMode.norm ('{' :: (k ++ '}' :: q)) =
      '{' :: (k ++ '}' :: rrDoubleAux f DMode.norm q) := by
  cases k with
  | nil => exact absurd rfl hne
  | cons c k' =>
    have hc := hk c (by simp)
    have hcne : c ≠ '{' := word_ne_lb hc
    rw [show rrDoubleAux f DMode.norm ('{' :: (c :: k' ++ '}' :: q)) =
        rrDoubleAux f DMode.one (c :: k' ++ '}' :: q) by simp [rrDoubleAux]]
    rw [show rrDoubleAux f DMode.one (c :: k' ++ '}' :: q) =
        '{' :: c :: rrDoubleAux f DMode.norm (k' ++ '}' :: q) by
      simp [rrDoubleAux, hcne]]
    rw [show k' ++ '}' :: q = (k' ++ ['}']) ++ q by simp]
    rw [rrDoubleAux_norm_append_nolb f (k' ++ ['}']) q]
    · simp
    · intro d hd
      rcases List.mem_append.mp hd with h1 | h1
      · exact word_ne_lb (hk d (by simp [h1]))
      · simp at h1
        subst h1
        decide

theorem rrSingleAux_doubletok_unres (f : String → Option String) (k : List Char)
    (q : List Char) (hne : k ≠ []) (hk : ∀ c ∈ k, isWordChar c = true)
    (hf : f (String.mk k) = none) :
    rrSingleAux f none ('{' :: '{' :: (k ++ '}' :: '}' :: q)) =
      '{' :: '{' :: (k ++ '}' :: '}' :: rrSingleAux f none q) := by
  have hlb : isWordChar '{' = false := by decide
  rw [show rrSingleAux f none ('{' :: '{' :: (k ++ '}' :: '}' :: q)) =
      rrSingleAux f (some []) ('{' :: (k ++ '}' :: '}' :: q)) by simp [rrSingleAux]]
  rw [show rrSingleAux f (some []) ('{' :: (k ++ '}' :: '}' :: q)) =
      '{' :: rrSingleAux f (some []) (k ++ '}' :: '}' :: q) by
    simp [rrSingleAux, hlb]]
  rw [rrSingleAux_run f k [] ('}' :: '}' :: q) hk]
  have hw : isWordChar '}' = false := by decide
  have hrev : k.reverse ≠ [] := by simpa using hne
  rw [show rrSingleAux f (some (k.reverse ++ [])) ('}' :: '}' :: q) =
      ('{' :: (k ++ ['}'])) ++ rrSingleAux f none ('}' :: q) by
    rw [List.append_nil]
    show (if isWordChar '}' = true then
        rrSingleAux f (some ('}' :: k.reverse)) ('}' :: q)
      else if '}' = '}' then
        if k.reverse = [] then '{' :: '}' :: rrSingleAux f none ('}' :: q)
        else
          (match f (String.mk k.reverse.reverse) with
           | some r => r.data
           | none => '{' :: (k.reverse.reverse ++ ['}'])) ++ rrSingleAux f none ('}' :: q)
      else if '}' = '{' then
        ('{' :: k.reverse.reverse) ++ rrSingleAux f (some []) ('}' :: q)
      else ('{' :: k.reverse.reverse) ++ ('}' :: rrSingleAux f none ('}' :: q))) = _
    rw [if_neg (by simp [hw]), if_pos rfl, if_neg hrev, List.reverse_reverse, hf]]
  rw [rrSingleAux_none_cons_ne f '}' q (by decide)]
  simp

theorem strMk_eq {l : List Char} {s : String} (h : l = s.data) :
    String.mk l = s := by
  subst h
  rfl

theorem rrSingleAux_none_nil (f : String → Option String) :
    rrSingleAux f none [] = [] := rfl

theorem rrDoubleAux_norm_nil (f : String → Option String) :
    rrDoubleAux f DMode.norm [] = [] := rfl

theorem substFn_some (cfg : Config) (esc : String → String) (k : String)
    (v : JSValue) (hv : lookupCfg cfg k = some v) (hu : v ≠ JSValue.undef) :
    substFn cfg esc k = some (esc (jsToString v)) := by
  unfold substFn safeGet
  rw [hv]
  cases v <;> simp_all

theorem substFn_none_absent (cfg : Config) (esc : String → String) (k : String)
    (h : lookupCfg cfg k = none) : substFn cfg esc k = none := by
  unfold substFn safeGet
  rw [h]

theorem substFn_none_undef (cfg : Config) (esc : String → String) (k : String)
    (h : lookupCfg cfg k = some JSValue.undef) : substFn cfg esc k = none := by
  unfold substFn safeGet
  rw [h]

theorem substFn_none_not_own (cfg : Config) (esc : String → String) (k : String)
    (h : hasOwn cfg k = false) : substFn cfg esc k = none := by
  unfold hasOwn at h
  cases hc : lookupCfg cfg k with
  | none => exact substFn_none_absent cfg esc k hc
  | some v => rw [hc] at h; simp at h

theorem processWithEscape_single_of_some (cfg : Config) (esc : String → String)
    (k E : String) (hne : k.data ≠ []) (hw : ∀ c ∈ k.data, isWordChar c = true)
    (hf : substFn cfg esc k = some E) :
    processWithEscape cfg esc ("\x7b" ++ k ++ "\x7d") = E := by
  unfold processWithEscape rrDouble rrSingle
  have hdata : ("\x7b" ++ k ++ "\x7d").data = '{' :: (k.data ++ '}' :: []) := by
    simp [strData_append]
  rw [hdata]
  rw [rrDoubleAux_singletok _ k.data [] hne hw]
  rw [show rrDoubleAux (substFn cfg esc) DMode.norm [] = [] from rfl]
  rw [rrSingleAux_tok _ k.data [] hne hw]
  rw [strMk_data, hf]
  rw [show (match some E with
      | some r => r.data
      | none => '{' :: (k.data ++ ['}'])) = E.data from rfl]
  rw [rrSingleAux_none_nil, List.append_nil]

theorem processWithEscape_double_of_some (cfg : Config) (esc : String → String)
    (k E : String) (hne : k.data ≠ []) (hw : ∀ c ∈ k.data, isWordChar c = true)
    (hf : substFn cfg esc k = some E) (hE : ∀ c ∈ E.data, c ≠ '{') :
    processWithEscape cfg esc ("\x7b\x7b" ++ k ++ "\x7d\x7d") = E := by
  unfold processWithEscape rrDouble rrSingle
  have hdata : ("\x7b\x7b" ++ k ++ "\x7d\x7d").data =
      '{' :: '{' :: (k.data ++ '}' :: '}' :: []) := by
    simp [strData_append]
  rw [hdata]
  rw [rrDoubleAux_tok _ k.data [] hne hw]
  rw [strMk_data, hf]
  rw [show rrDoubleAux (substFn cfg esc) DMode.norm [] = [] from rfl]
  rw [List.append_nil]
  rw [rrSingleAux_none_nolb _ E.data hE]

theorem processWithEscape_of_none (cfg : Config) (esc : String → String)
    (k : String) (hne : k.data ≠ []) (hw : ∀ c ∈ k.data, isWordChar c = true)
    (hf : substFn cfg esc k = none) :
    processWithEscape cfg esc ("\x7b" ++ k ++ "\x7d") = "\x7b" ++ k ++ "\x7d" ∧
    processWithEscape cfg esc ("\x7b\x7b" ++ k ++ "\x7d\x7d") =
      "\x7b\x7b" ++ k ++ "\x7d\x7d" := by
  constructor
  · unfold processWithEscape rrDouble rrSingle
    have hdata : ("\x7b" ++ k ++ "\x7d").data = '{' :: (k.data ++ '}' :: []) := by
      simp [strData_append]
    rw [hdata]
    rw [rrDoubleAux_singletok _ k.data [] hne hw]
    rw [show rrDoubleAux (substFn cfg esc) DMode.norm [] = [] from rfl]
    rw [rrSingleAux_tok _ k.data [] hne hw]
    rw [strMk_data, hf]
    exact strMk_eq (by simp [hdata, rrSingleAux_none_nil])
  · unfold processWithEscape rrDouble rrSingle
    have hdata : ("\x7b\x7b" ++ k ++ "\x7d\x7d").data =
        '{' :: '{' :: (k.data ++ '}' :: '}' :: []) := by
      simp [strData_append]
    rw [hdata]
    rw [rrDoubleAux_tok _ k.data [] hne hw]
    rw [strMk_data, hf]
    rw [show ('{' :: '{' :: (k.data ++ ['}', '}'])) ++
        rrDoubleAux (substFn cfg esc) DMode.norm [] =
        '{' :: '{' :: (k.data ++ '}' :: '}' :: []) from by
      simp [rrDoubleAux_norm_nil]]
    rw [rrSingleAux_doubletok_unres _ k.data [] hne hw (by rw [strMk_data]; exact hf)]
    exact strMk_eq (by simp [hdata, rrSingleAux_none_nil])

theorem replaceCharL_append (c : Char) (r : List Char) (l1 l2 : List Char) :
    replaceCharL c r (l1 ++ l2) = replaceCharL c r l1 ++ replaceCharL c r l2 := by
  induction l1 with
  | nil => rfl
  | cons x xs ih => simp [replaceCharL, ih]

theorem escapeHTML_data_spec (l : List Char) :
    replaceCharL '\'' "&#x27;".data
      (replaceCharL '"' "&quot;".data
        (replaceCharL '>' "&gt;".data
          (replaceCharL '<' "&lt;".data
            (replaceCharL '&' "&amp;".data l)))) =
      (l.map htmlEscCharSpec).flatten := by
  induction l with
  | nil => rfl
  | cons x xs ih =>
    rw [show x :: xs = [x] ++ xs from rfl]
    simp only [replaceCharL_append, List.map_append, List.flatten_append]
    rw [ih]
    congr 1
    by_cases h1 : x = '&'
    · subst h1; decide
    by_cases h2 : x = '<'
    · subst h2; decide
    by_cases h3 : x = '>'
    · subst h3; decide
    by_cases h4 : x = '"'
    · subst h4; decide
    by_cases h5 : x = '\''
    · subst h5; decide
    simp [replaceCharL, htmlEscCharSpec, h1, h2, h3, h4, h5]

theorem escapeHTML_eq_spec (s : String) :
    escapeHTML s = String.mk ((s.data.map htmlEscCharSpec).flatten) :=
  congrArg String.mk (escapeHTML_data_spec s.data)

theorem htmlEscCharSpec_lb_not_mem (d : Char) (hd : d ≠ '{') :
    '{' ∉ htmlEscCharSpec d := by
  unfold htmlEscCharSpec
  by_cases h1 : d = '&'
  · subst h1; decide
  by_cases h2 : d = '<'
  · subst h2; decide
  by_cases h3 : d = '>'
  · subst h3; decide
  by_cases h4 : d = '"'
  · subst h4; decide
  by_cases h5 : d = '\''
  · subst h5; decide
  simp [h1, h2, h3, h4, h5]
  exact fun h => hd h.symm

theorem escapeHTML_no_lb (s : String) (h : ∀ c ∈ s.data, c ≠ '{') :
    ∀ c ∈ (escapeHTML s).data, c ≠ '{' := by
  intro c hc
  rw [escapeHTML_eq_spec] at hc
  simp only [List.mem_flatten, List.mem_map] at hc
  obtain ⟨piece, ⟨d, hdmem, rfl⟩, hcp⟩ := hc
  intro hceq
  subst hceq
  exact htmlEscCharSpec_lb_not_mem d (h d hdmem) hcp

theorem escapeJSSeven_append (l1 l2 : List Char) :
    escapeJSSeven (l1 ++ l2) = escapeJSSeven l1 ++ escapeJSSeven l2 := by
  simp only [escapeJSSeven, replaceCharL_append]

theorem escapeJSSeven_single (x : Char) :
    escapeJSSeven [x] = jsMapChar x := by
  by_cases h1 : x = '\\'
  · subst h1; decide
  by_cases h2 : x = '\''
  · subst h2; decide
  by_cases h3 : x = '"'
  · subst h3; decide
  by_cases h4 : x = '\n'
  · subst h4; decide
  by_cases h5 : x = '\r'
  · subst h5; decide
  by_cases h6 : x = Char.ofNat 0x2028
  · subst h6; decide
  by_cases h7 : x = Char.ofNat 0x2029
  · subst h7; decide
  simp [escapeJSSeven, replaceCharL, jsMapChar, h1, h2, h3, h4, h5, h6, h7]

theorem escapeJSSeven_spec (l : List Char) :
    escapeJSSeven l = (l.map jsMapChar).flatten := by
  induction l with
  | nil => rfl
  | cons x xs ih =>
    rw [show x :: xs = [x] ++ xs from rfl, escapeJSSeven_append, ih,
      escapeJSSeven_single]
    simp

theorem jsMapChar_ne_nil (c : Char) : jsMapChar c ≠ [] := by
  unfold jsMapChar
  by_cases h1 : c = '\\'
  · simp [h1]
  by_cases h2 : c = '\''
  · simp [h1, h2]
  by_cases h3 : c = '"'
  · simp [h1, h2, h3]
  by_cases h4 : c = '\n'
  · simp [h1, h2, h3, h4]
  by_cases h5 : c = '\r'
  · simp [h1, h2, h3, h4, h5]
  by_cases h6 : c = Char.ofNat 0x2028
  · simp [h1, h2, h3, h4, h5, h6]
  by_cases h7 : c = Char.ofNat 0x2029
  · simp [h1, h2, h3, h4, h5, h6, h7]
  simp [h1, h2, h3, h4, h5, h6, h7]

theorem jsMapChar_lt_not_mem (c : Char) (h : c ≠ '<') : '<' ∉ jsMapChar c := by
  unfold jsMapChar
  by_cases h1 : c = '\\'
  · subst h1; decide
  by_cases h2 : c = '\''
  · subst h2; decide
  by_cases h3 : c = '"'
  · subst h3; decide
  by_cases h4 : c = '\n'
  · subst h4; decide
  by_cases h5 : c = '\r'
  · subst h5; decide
  by_cases h6 : c = Char.ofNat 0x2028
  · subst h6; decide
  by_cases h7 : c = Char.ofNat 0x2029
  · subst h7; decide
  simp [h1, h2, h3, h4, h5, h6, h7]
  exact fun he => h he.symm

theorem jsMapChar_head_ne_slash (c : Char) (h : c ≠ '/') :
    (jsMapChar c).head? ≠ some '/' := by
  unfold jsMapChar
  by_cases h1 : c = '\\'
  · subst h1; decide
  by_cases h2 : c = '\''
  · subst h2; decide
  by_cases h3 : c = '"'
  · subst h3; decide
  by_cases h4 : c = '\n'
  · subst h4; decide
  by_cases h5 : c = '\r'
  · subst h5; decide
  by_cases h6 : c = Char.ofNat 0x2028
  · subst h6; decide
  by_cases h7 : c = Char.ofNat 0x2029
  · subst h7; decide
  simp [h1, h2, h3, h4, h5, h6, h7]
  exact fun he => h he

theorem replaceLtSlashL_cons_ne (c : Char) (t : List Char) (h : c ≠ '<') :
    replaceLtSlashL (c :: t) = c :: replaceLtSlashL t := by
  cases t with
  | nil => rfl
  | cons d t' =>
    show (if c = '<' ∧ d = '/' then '<' :: '\\' :: '/' :: replaceLtSlashL t'
      else c :: replaceLtSlashL (d :: t')) = c :: replaceLtSlashL (d :: t')
    rw [if_neg (fun hh => h hh.1)]

theorem replaceLtSlashL_append_nolt (p q : List Char) (h : ∀ a ∈ p, a ≠ '<') :
    replaceLtSlashL (p ++ q) = p ++ replaceLtSlashL q := by
  induction p with
  | nil => rfl
  | cons a p' ih =>
    rw [List.cons_append, replaceLtSlashL_cons_ne a _ (h a (by simp)),
      ih (fun b hb => h b (by simp [hb]))]
    simp

theorem replaceLtSlashL_nolt (l : List Char) (h : ∀ a ∈ l, a ≠ '<') :
    replaceLtSlashL l = l := by
  have h2 := replaceLtSlashL_append_nolt l [] h
  simpa [show replaceLtSlashL [] = [] from rfl] using h2

theorem replaceLtSlashL_lt_cons (t : List Char) (h : t.head? ≠ some '/') :
    replaceLtSlashL ('<' :: t) = '<' :: replaceLtSlashL t := by
  cases t with
  | nil => rfl
  | cons d t' =>
    show (if '<' = '<' ∧ d = '/' then '<' :: '\\' :: '/' :: replaceLtSlashL t'
      else '<' :: replaceLtSlashL (d :: t')) = '<' :: replaceLtSlashL (d :: t')
    rw [if_neg (fun hh => h (by simp [hh.2]))]

theorem jsSeq_eq_onepass : ∀ l : List Char,
    replaceLtSlashL ((l.map jsMapChar).flatten) = jsOnePass l
  | [] => rfl
  | [c] => by
    simp only [List.map_cons, List.map_nil, List.flatten_cons, List.flatten_nil,
      List.append_nil]
    show replaceLtSlashL (jsMapChar c) = jsOnePass [c]
    rw [show jsOnePass [c] = jsMapChar c from rfl]
    by_cases h : c = '<'
    · subst h; decide
    · exact replaceLtSlashL_nolt _ (fun a ha => by
        intro he; subst he; exact jsMapChar_lt_not_mem c h ha)
  | c :: d :: rest => by
    by_cases hcd : c = '<' ∧ d = '/'
    · obtain ⟨hc, hd⟩ := hcd
      subst hc; subst hd
      rw [show jsOnePass ('<' :: '/' :: rest) =
          '<' :: '\\' :: '/' :: jsOnePass rest from by
        show (if '<' = '<' ∧ '/' = '/' then '<' :: '\\' :: '/' :: jsOnePass rest
          else jsMapChar '<' ++ jsOnePass ('/' :: rest)) = _
        rw [if_pos ⟨rfl, rfl⟩]]
      simp only [List.map_cons, List.flatten_cons]
      rw [show jsMapChar '<' = ['<'] from by decide,
        show jsMapChar '/' = ['/'] from by decide]
      rw [show ['<'] ++ (['/'] ++ (rest.map jsMapChar).flatten) =
          '<' :: '/' :: (rest.map jsMapChar).flatten from rfl]
      rw [show replaceLtSlashL ('<' :: '/' :: (rest.map jsMapChar).flatten) =
          '<' :: '\\' :: '/' :: replaceLtSlashL ((rest.map jsMapChar).flatten) from by
        show (if '<' = '<' ∧ '/' = '/' then
            '<' :: '\\' :: '/' :: replaceLtSlashL ((rest.map jsMapChar).flatten)
          else '<' :: replaceLtSlashL ('/' :: (rest.map jsMapChar).flatten)) = _
        rw [if_pos ⟨rfl, rfl⟩]]
      rw [jsSeq_eq_onepass rest]
    · rw [show jsOnePass (c :: d :: rest) = jsMapChar c ++ jsOnePass (d :: rest) from by
        show (if c = '<' ∧ d = '/' then '<' :: '\\' :: '/' :: jsOnePass rest
          else jsMapChar c ++ jsOnePass (d :: rest)) = _
        rw [if_neg hcd]]
      simp only [List.map_cons, List.flatten_cons]
      by_cases hc : c = '<'
      · subst hc
        have hd : d ≠ '/' := fun hdd => hcd ⟨rfl, hdd⟩
        rw [show jsMapChar '<' = ['<'] from by decide]
        rw [show ['<'] ++ (jsMapChar d ++ (rest.map jsMapChar).flatten) =
            '<' :: (jsMapChar d ++ (rest.map jsMapChar).flatten) from rfl]
        rw [replaceLtSlashL_lt_cons _ (by
          cases hjd : jsMapChar d with
          | nil => exact absurd hjd (jsMapChar_ne_nil d)
          | cons a t =>
            have := jsMapChar_head_ne_slash d hd
            rw [hjd] at this
            simpa using this)]
        have := jsSeq_eq_onepass (d :: rest)
        simp only [List.map_cons, List.flatten_cons] at this
        rw [this]
        rfl
      · rw [replaceLtSlashL_append_nolt _ _ (fun a ha => by
          intro he; subst he; exact jsMapChar_lt_not_mem c hc ha)]
        have := jsSeq_eq_onepass (d :: rest)
        simp only [List.map_cons, List.flatten_cons] at this
        rw [this]

theorem escapeJS_eq_onepass (s : String) :
    escapeJS s = String.mk (jsOnePass s.data) := by
  unfold escapeJS
  rw [escapeJSSeven_spec, jsSeq_eq_onepass]

theorem escapeCSSL_append (l1 l2 : List Char) :
    escapeCSSL (l1 ++ l2) = escapeCSSL l1 ++ escapeCSSL l2 := by
  induction l1 with
  | nil => rfl
  | cons x xs ih => simp [escapeCSSL, ih]

theorem escapeCSSL_allowed (l : List Char)
    (h : ∀ c ∈ l, isCSSAllowed c = true) : escapeCSSL l = l := by
  induction l with
  | nil => rfl
  | cons x xs ih =>
    rw [show escapeCSSL (x :: xs) =
        (if isCSSAllowed x then [x] else cssEscChar x) ++ escapeCSSL xs from rfl]
    rw [if_pos (h x (by simp)), ih (fun d hd => h d (by simp [hd]))]
    simp

theorem escapeCSS_allowed (s : String)
    (h : ∀ c ∈ s.data, isCSSAllowed c = true) : escapeCSS s = s := by
  unfold escapeCSS
  rw [escapeCSSL_allowed s.data h]

theorem escapeCSS_disallowed_single (c : Char) (h : isCSSAllowed c = false) :
    escapeCSS (String.mk [c]) =
      String.mk ('\\' :: ((toHex c.toNat).data ++ [' '])) := by
  unfold escapeCSS
  rw [show (String.mk [c]).data = [c] from rfl]
  rw [show escapeCSSL [c] =
      (if isCSSAllowed c then [c] else cssEscChar c) ++ escapeCSSL [] from rfl]
  rw [if_neg (by simp [h])]
  simp [cssEscChar, escapeCSSL]

theorem mLookup_set_self (ms : List (String × JSON)) (k : String) (v : JSON) :
    mLookup (setMember ms k v) k = some v := by
  induction ms with
  | nil => simp [setMember, mLookup]
  | cons p rest ih =>
    obtain ⟨k', v'⟩ := p
    by_cases h : k = k'
    · simp [setMember, h, mLookup]
    · simp [setMember, h, mLookup, ih]

theorem mLookup_set_other (ms : List (String × JSON)) (k k' : String) (v : JSON)
    (h : k' ≠ k) : mLookup (setMember ms k v) k' = mLookup ms k' := by
  induction ms with
  | nil => simp [setMember, mLookup, h]
  | cons p rest ih =>
    obtain ⟨k2, v2⟩ := p
    by_cases h2 : k = k2
    · subst h2
      simp [setMember, mLookup, h]
    · by_cases h3 : k' = k2
      · simp [setMember, h2, mLookup, h3]
      · simp [setMember, h2, mLookup, h3, ih]

theorem ensureCfgMember_obj (ms : List (String × JSON)) (k : String) :
    ensureCfgMember (JSON.obj ms) k =
      (if !(undefTruthy (mLookup ms k)) || !(typeofObjOpt (mLookup ms k)) then
        JSON.obj (setMember ms k (JSON.obj []))
      else JSON.obj ms) := rfl

theorem loadFieldConfigPure_ne_traversal (pr : Except String JSON) :
    loadFieldConfigPure pr ≠ Except.error LoadErr.traversal := by
  cases pr with
  | error msg => simp [loadFieldConfigPure]
  | ok parsed =>
    show (match jsMember parsed "fields" with
      | Except.error m => Except.error (LoadErr.typeError m)
      | Except.ok fo =>
        if !(undefTruthy fo) || !(isArrOpt fo) then
          Except.error
            (LoadErr.structural "Invalid field.json: missing or invalid \"fields\" array")
        else
          Except.ok (ensureCfgMember (ensureCfgMember parsed "globalConfig")
            "variantConfig")) ≠ Except.error LoadErr.traversal
    cases hm : jsMember parsed "fields" with
    | error m => simp
    | ok fo =>
      split
      · simp
      · split <;> simp

theorem splitSegsAux_good (l : List Char) : ∀ (cur : List Char),
    (∀ c ∈ cur, c ≠ '/') →
    ∀ s ∈ splitSegsAux cur l, s ≠ [] ∧ ∀ c ∈ s, c ≠ '/' := by
  induction l with
  | nil =>
    intro cur hcur s hs
    unfold splitSegsAux at hs
    by_cases hc : cur = []
    · simp [hc] at hs
    · rw [if_neg hc] at hs
      simp only [List.mem_singleton] at hs
      subst hs
      refine ⟨by simpa using hc, fun c hcmem => hcur c (by simpa using hcmem)⟩
  | cons c rest ih =>
    intro cur hcur s hs
    unfold splitSegsAux at hs
    by_cases hslash : c = '/'
    · rw [if_pos hslash] at hs
      by_cases hc : cur = []
      · rw [if_pos hc] at hs
        exact ih [] (by simp) s hs
      · rw [if_neg hc] at hs
        rcases List.mem_cons.mp hs with h1 | h1
        · subst h1
          exact ⟨by simpa using hc, fun d hd => hcur d (by simpa using hd)⟩
        · exact ih [] (by simp) s h1
    · rw [if_neg hslash] at hs
      refine ih (c :: cur) ?_ s hs
      intro d hd
      rcases List.mem_cons.mp hd with h1 | h1
      · subst h1; exact hslash
      · exact hcur d h1

theorem splitSegsL_good (l : List Char) :
    ∀ s ∈ splitSegsL l, s ≠ [] ∧ ∀ c ∈ s, c ≠ '/' :=
  splitSegsAux_good l [] (by simp)

theorem foldl_normStep_mem (l : List (List Char)) : ∀ (acc : List (List Char))
    (s : List Char), s ∈ List.foldl normStep acc l →
    s ∈ acc ∨ (s ∈ l ∧ s ≠ ['.'] ∧ s ≠ ['.', '.']) := by
  induction l with
  | nil =>
    intro acc s hs
    simp only [List.foldl_nil] at hs
    exact Or.inl hs
  | cons a l' ih =>
    intro acc s hs
    rw [List.foldl_cons] at hs
    rcases ih (normStep acc a) s hs with h1 | h1
    · unfold normStep at h1
      by_cases ha1 : a = ['.']
      · rw [if_pos ha1] at h1
        exact Or.inl h1
      by_cases ha2 : a = ['.', '.']
      · rw [if_neg ha1, if_pos ha2] at h1
        exact Or.inl (List.dropLast_subset _ h1)
      · rw [if_neg ha1, if_neg ha2] at h1
        rcases List.mem_append.mp h1 with h2 | h2
        · exact Or.inl h2
        · simp only [List.mem_singleton] at h2
          subst h2
          exact Or.inr ⟨by simp, ha1, ha2⟩
    · exact Or.inr ⟨by simp [h1.1], h1.2.1, h1.2.2⟩

theorem normSegs_mem (l : List (List Char)) (s : List Char)
    (hs : s ∈ normSegs l) :
    s ∈ l ∧ s ≠ ['.'] ∧ s ≠ ['.', '.'] := by
  rcases foldl_normStep_mem l [] s hs with h1 | h1
  · simp at h1
  · exact h1

theorem foldl_normStep_plain (l : List (List Char))
    (h : ∀ s ∈ l, s ≠ ['.'] ∧ s ≠ ['.', '.']) : ∀ (acc : List (List Char)),
    List.foldl normStep acc l = acc ++ l := by
  induction l with
  | nil => simp
  | cons a l' ih =>
    intro acc
    rw [List.foldl_cons]
    have ha := h a (by simp)
    rw [show normStep acc a = acc ++ [a] from by
      unfold normStep; rw [if_neg ha.1, if_neg ha.2]]
    rw [ih (fun s hs => h s (by simp [hs])) (acc ++ [a])]
    simp

theorem normSegs_plain (l : List (List Char))
    (h : ∀ s ∈ l, s ≠ ['.'] ∧ s ≠ ['.', '.']) : normSegs l = l := by
  unfold normSegs
  rw [foldl_normStep_plain l h []]
  simp

theorem splitSegsAux_nil (cur : List Char) :
    splitSegsAux cur [] = if cur = [] then [] else [cur.reverse] := rfl

theorem splitSegsAux_cons (cur : List Char) (c : Char) (l : List Char) :
    splitSegsAux cur (c :: l) =
      if c = '/' then
        (if cur = [] then splitSegsAux [] l else cur.reverse :: splitSegsAux [] l)
      else splitSegsAux (c :: cur) l := rfl

theorem splitSegsAux_word (s : List Char) : ∀ (cur r : List Char),
    (∀ c ∈ s, c ≠ '/') →
    splitSegsAux cur (s ++ r) = splitSegsAux (s.reverse ++ cur) r := by
  induction s with
  | nil => simp
  | cons c s' ih =>
    intro cur r hs
    rw [List.cons_append, splitSegsAux_cons, if_neg (hs c (by simp))]
    rw [ih (c :: cur) r (fun d hd => hs d (by simp [hd]))]
    simp

theorem splitSegs_join_good : ∀ (segs : List (List Char)),
    (∀ s ∈ segs, s ≠ [] ∧ ∀ c ∈ s, c ≠ '/') →
    splitSegsL (joinSegsL segs) = segs
  | [], _ => rfl
  | [s], h => by
    have hs := h s (by simp)
    show splitSegsAux [] (joinSegsL [s]) = [s]
    rw [show joinSegsL [s] = s from rfl]
    rw [show splitSegsAux [] s = splitSegsAux [] (s ++ []) from by simp]
    rw [splitSegsAux_word s [] [] hs.2, splitSegsAux_nil]
    rw [if_neg (by simpa using hs.1)]
    simp
  | s :: s2 :: rest, h => by
    have hs := h s (by simp)
    show splitSegsAux [] (joinSegsL (s :: s2 :: rest)) = s :: s2 :: rest
    rw [show joinSegsL (s :: s2 :: rest) =
        s ++ ('/' :: joinSegsL (s2 :: rest)) from rfl]
    rw [splitSegsAux_word s [] ('/' :: joinSegsL (s2 :: rest)) hs.2]
    rw [splitSegsAux_cons, if_pos rfl, if_neg (by simpa using hs.1)]
    have ihres := splitSegs_join_good (s2 :: rest) (fun t ht => h t (by simp [ht]))
    unfold splitSegsL at ihres
    rw [ihres]
    simp

theorem joinSegsL_cons_cons (s s2 : List Char) (rest : List (List Char)) :
    joinSegsL (s :: s2 :: rest) = s ++ ('/' :: joinSegsL (s2 :: rest)) := rfl

theorem joinSegsL_append_single : ∀ (nb : List (List Char)) (s : List Char),
    nb ≠ [] → joinSegsL (nb ++ [s]) = joinSegsL nb ++ ('/' :: s)
  | [], _, h => absurd rfl h
  | [t], s, _ => rfl
  | t :: t2 :: rest, s, _ => by
    rw [show (t :: t2 :: rest) ++ [s] = t :: ((t2 :: rest) ++ [s]) from rfl]
    rw [show (t2 :: rest) ++ [s] = t2 :: (rest ++ [s]) from rfl]
    rw [joinSegsL_cons_cons t t2 (rest ++ [s])]
    rw [show t2 :: (rest ++ [s]) = (t2 :: rest) ++ [s] from rfl]
    rw [joinSegsL_append_single (t2 :: rest) s (by simp)]
    rw [joinSegsL_cons_cons]
    simp

theorem resolveL_join_plain (segs : List (List Char))
    (h : ∀ s ∈ segs, (s ≠ [] ∧ ∀ c ∈ s, c ≠ '/') ∧ s ≠ ['.'] ∧ s ≠ ['.', '.']) :
    resolveL (joinAbsL segs) = joinAbsL segs := by
  unfold resolveL joinAbsL
  rw [show splitSegsL ('/' :: joinSegsL segs) =
      splitSegsAux [] (joinSegsL segs) from by
    unfold splitSegsL
    rw [splitSegsAux_cons, if_pos rfl, if_pos rfl]]
  rw [show splitSegsAux [] (joinSegsL segs) =
      splitSegsL (joinSegsL segs) from rfl]
  rw [splitSegs_join_good segs (fun s hs => (h s hs).1)]
  rw [normSegs_plain segs (fun s hs => (h s hs).2)]

theorem isPrefixOf_append_self (l r : List Char) : l.isPrefixOf (l ++ r) = true := by
  induction l with
  | nil => simp [List.isPrefixOf]
  | cons c l' ih => simp [List.isPrefixOf, ih]

theorem validate_fixed_name (dir nm : String)
    (hnb : normSegs (splitSegsL dir.data) ≠ [])
    (hnm1 : nm.data ≠ [])
    (hnm2 : ∀ c ∈ nm.data, c ≠ '/')
    (hnm3 : nm.data ≠ ['.'] ∧ nm.data ≠ ['.', '.']) :
    validatePathWithinBase (resolvePath dir) (resolveFrom (resolvePath dir) nm) = true := by
  have hGoodPlain : ∀ s ∈ normSegs (splitSegsL dir.data),
      (s ≠ [] ∧ ∀ c ∈ s, c ≠ '/') ∧ s ≠ ['.'] ∧ s ≠ ['.', '.'] := by
    intro s hs
    have hmem := normSegs_mem _ s hs
    exact ⟨splitSegsL_good dir.data s hmem.1, hmem.2⟩
  have hbase_data : (resolvePath dir).data = joinAbsL (normSegs (splitSegsL dir.data)) := rfl
  have hsplitbase : splitSegsL (joinAbsL (normSegs (splitSegsL dir.data))) =
      normSegs (splitSegsL dir.data) := by
    unfold joinAbsL
    rw [show splitSegsL ('/' :: joinSegsL (normSegs (splitSegsL dir.data))) =
        splitSegsL (joinSegsL (normSegs (splitSegsL dir.data))) from by
      unfold splitSegsL
      rw [splitSegsAux_cons, if_pos rfl, if_pos rfl]]
    exact splitSegs_join_good _ (fun s hs => (hGoodPlain s hs).1)
  have hsplitnm : splitSegsL nm.data = [nm.data] := by
    unfold splitSegsL
    rw [show splitSegsAux [] nm.data = splitSegsAux [] (nm.data ++ []) from by
      rw [List.append_nil]]
    rw [splitSegsAux_word nm.data [] [] hnm2, splitSegsAux_nil,
      if_neg (by simpa using hnm1)]
    simp
  have hplainall : ∀ s ∈ normSegs (splitSegsL dir.data) ++ [nm.data],
      (s ≠ [] ∧ ∀ c ∈ s, c ≠ '/') ∧ s ≠ ['.'] ∧ s ≠ ['.', '.'] := by
    intro s hs
    rcases List.mem_append.mp hs with h1 | h1
    · exact hGoodPlain s h1
    · simp only [List.mem_singleton] at h1
      subst h1
      exact ⟨⟨hnm1, hnm2⟩, hnm3⟩
  have hnorm : normSegs (normSegs (splitSegsL dir.data) ++ [nm.data]) =
      normSegs (splitSegsL dir.data) ++ [nm.data] :=
    normSegs_plain _ (fun s hs => (hplainall s hs).2)
  have htarget : resolveFrom (resolvePath dir) nm =
      String.mk (joinAbsL (normSegs (splitSegsL dir.data) ++ [nm.data])) := by
    unfold resolveFrom
    cases hd : nm.data with
    | nil => exact absurd hd hnm1
    | cons c rest =>
      show (if c = '/' then resolvePath nm
        else String.mk (joinAbsL (normSegs (splitSegsL (resolvePath dir).data ++
          splitSegsL (c :: rest))))) =
        String.mk (joinAbsL (normSegs (splitSegsL dir.data) ++ [c :: rest]))
      rw [if_neg (hnm2 c (by simp [hd]))]
      rw [show (resolvePath dir).data =
          joinAbsL (normSegs (splitSegsL dir.data)) from rfl]
      rw [hsplitbase]
      rw [← hd, hsplitnm, hnorm]
  have hrb : resolveL (resolvePath dir).data =
      joinAbsL (normSegs (splitSegsL dir.data)) := by
    rw [hbase_data]
    exact resolveL_join_plain _ hGoodPlain
  have hrt : resolveL (resolveFrom (resolvePath dir) nm).data =
      joinAbsL (normSegs (splitSegsL dir.data) ++ [nm.data]) := by
    rw [htarget]
    rw [show (String.mk (joinAbsL (normSegs (splitSegsL dir.data) ++ [nm.data]))).data =
        joinAbsL (normSegs (splitSegsL dir.data) ++ [nm.data]) from rfl]
    exact resolveL_join_plain _ hplainall
  have hj : joinAbsL (normSegs (splitSegsL dir.data) ++ [nm.data]) =
      (joinAbsL (normSegs (splitSegsL dir.data)) ++ ['/']) ++ nm.data := by
    unfold joinAbsL
    rw [joinSegsL_append_single _ nm.data hnb]
    simp
  show ((resolveL (resolvePath dir).data ++ ['/']).isPrefixOf
      (resolveL (resolveFrom (resolvePath dir) nm).data) ||
      resolveL (resolveFrom (resolvePath dir) nm).data ==
        resolveL (resolvePath dir).data) = true
  rw [hrb, hrt, hj, isPrefixOf_append_self]
  simp

theorem loadFieldConfigFS_no_traversal (fs : FS (Except String JSON)) (fuel : Nat)
    (dir : String) (hnb : normSegs (splitSegsL dir.data) ≠ []) :
    (loadFieldConfigFS fs fuel dir).2 ≠ Except.error LoadErr.traversal := by
  unfold loadFieldConfigFS
  have hv := validate_fixed_name dir "field.json" hnb (by decide) (by decide)
    (by constructor <;> decide)
  rw [if_pos hv]
  rcases hr : readFS fs fuel (resolveFrom (resolvePath dir) "field.json") with ⟨reads, copt⟩
  cases copt with
  | none => simp
  | some pr => exact loadFieldConfigPure_ne_traversal pr

theorem loadTemplateFilesFS_no_traversal (fs : FS String) (fuel : Nat)
    (dir : String) (hnb : normSegs (splitSegsL dir.data) ≠ []) :
    (loadTemplateFilesFS fs fuel dir).2 ≠ Except.error LoadErr.traversal := by
  unfold loadTemplateFilesFS
  have h1 := validate_fixed_name dir "index.html" hnb (by decide) (by decide)
    (by constructor <;> decide)
  have h2 := validate_fixed_name dir "style.css" hnb (by decide) (by decide)
    (by constructor <;> decide)
  have h3 := validate_fixed_name dir "script.js" hnb (by decide) (by decide)
    (by constructor <;> decide)
  rw [h1, h2, h3]
  rw [if_pos (show (true && true && true) = true from rfl)]
  rcases hr : readFS fs fuel (resolveFrom (resolvePath dir) "index.html") with ⟨r1, hopt⟩
  cases hopt <;> simp

theorem resultMember_ok_obj (ms : List (String × JSON)) (k : String) :
    resultMember (Except.ok (JSON.obj ms)) k = mLookup ms k := rfl

theorem bool_cond_of_and_false {a b : Bool} (h : (a && b) = false) :
    (!a || !b) = true := by
  cases a <;> cases b <;> simp_all

theorem loadFieldConfigPure_ok_eq (parsed : JSON) (fo : Option JSON)
    (hok : jsMember parsed "fields" = Except.ok fo) :
    loadFieldConfigPure (Except.ok parsed) =
      (if !(undefTruthy fo) || !(isArrOpt fo) then
        Except.error
          (LoadErr.structural "Invalid field.json: missing or invalid \"fields\" array")
      else
        Except.ok (ensureCfgMember (ensureCfgMember parsed "globalConfig")
          "variantConfig")) := by
  show (match jsMember parsed "fields" with
    | Except.error m => Except.error (LoadErr.typeError m)
    | Except.ok fo =>
      if !(undefTruthy fo) || !(isArrOpt fo) then
        Except.error
          (LoadErr.structural "Invalid field.json: missing or invalid \"fields\" array")
      else
        Except.ok (ensureCfgMember (ensureCfgMember parsed "globalConfig")
          "variantConfig")) = _
  rw [hok]

/-- C1, counterexample.  The claim says a double-brace token resolves to
exactly the markup-escaped stringification of its value and that the
substituted value is never re-scanned.  With the configuration binding
`a` to the text of a single-brace token for `b`, processHTML of the
double-brace token for `a` returns the resolution of `b`, not the
escaped value of `a`: the double-brace pass's output is re-scanned by
the single-brace pass. -/
theorem C1_counterexample :
    lookupCfg exScanCfg "a" = some (JSValue.str "\x7bb\x7d") ∧
    escapeHTML (jsToString (JSValue.str "\x7bb\x7d")) = "\x7bb\x7d" ∧
    processHTML exScanCfg "\x7b\x7ba\x7d\x7d" = "Z" ∧
    ("Z" : String) ≠ "\x7bb\x7d" := by
  refine ⟨by decide, by decide, by decide, by decide⟩

/-- C1, amended.  For every own key `k` (word characters) whose value
`v` is defined, processHTML of the single-brace token for `k` is
exactly `escapeHTML(String(v))`; the same holds for the double-brace
token provided the stringified value contains no opening brace — in
general the value substituted for a double-brace token is re-scanned by
the subsequent single-brace pass. -/
theorem C1_amended (cfg : Config) (k : String) (v : JSValue)
    (hv : lookupCfg cfg k = some v) (hu : v ≠ JSValue.undef)
    (hne : k.data ≠ []) (hw : ∀ c ∈ k.data, isWordChar c = true) :
    processHTML cfg ("\x7b" ++ k ++ "\x7d") = escapeHTML (jsToString v) ∧
    ((∀ c ∈ (jsToString v).data, c ≠ '{') →
      processHTML cfg ("\x7b\x7b" ++ k ++ "\x7d\x7d") = escapeHTML (jsToString v)) := by
  have hf := substFn_some cfg escapeHTML k v hv hu
  exact ⟨processWithEscape_single_of_some cfg escapeHTML k _ hne hw hf,
    fun hnb => processWithEscape_double_of_some cfg escapeHTML k _ hne hw hf
      (escapeHTML_no_lb _ hnb)⟩

/-- C1, witness: the amended theorem applied to the concrete goal-title
configuration. -/
theorem C1_amended_witness :
    processHTML exGoalCfg ("\x7b" ++ "goalTitle" ++ "\x7d") =
      escapeHTML (jsToString (JSValue.str "Member <Goal>")) ∧
    processHTML exGoalCfg ("\x7b\x7b" ++ "goalTitle" ++ "\x7d\x7d") =
      escapeHTML (jsToString (JSValue.str "Member <Goal>")) :=
  ⟨(C1_amended exGoalCfg "goalTitle" (JSValue.str "Member <Goal>")
      (by decide) (by decide) (by decide) (by decide)).1,
   (C1_amended exGoalCfg "goalTitle" (JSValue.str "Member <Goal>")
      (by decide) (by decide) (by decide) (by decide)).2 (by decide)⟩

/-- C2.  `toString` and `constructor` are properties every plain object
inherits from Object.prototype, yet for any configuration that does not
own them, processHTML leaves the probes as the literal unresolved
placeholders: safeGet's lookup is an own-property check only and never
falls through to inherited properties. -/
theorem C2_prototype_probe (cfg : Config)
    (h1 : hasOwn cfg "toString" = false) (h2 : hasOwn cfg "constructor" = false) :
    "toString" ∈ objectPrototypeKeys ∧ "constructor" ∈ objectPrototypeKeys ∧
    processHTML cfg "\x7btoString\x7d" = "\x7btoString\x7d" ∧
    processHTML cfg "\x7b\x7bconstructor\x7d\x7d" = "\x7b\x7bconstructor\x7d\x7d" := by
  have p1 := processWithEscape_of_none cfg escapeHTML "toString" (by decide) (by decide)
    (substFn_none_not_own cfg escapeHTML "toString" h1)
  have p2 := processWithEscape_of_none cfg escapeHTML "constructor" (by decide) (by decide)
    (substFn_none_not_own cfg escapeHTML "constructor" h2)
  exact ⟨by decide, by decide, p1.1, p2.2⟩

/-- C2, witness: the prototype probes on a concrete configuration
without those keys. -/
theorem C2_prototype_probe_witness :
    processHTML exGoalCfg "\x7btoString\x7d" = "\x7btoString\x7d" ∧
    processHTML exGoalCfg "\x7b\x7bconstructor\x7d\x7d" = "\x7b\x7bconstructor\x7d\x7d" :=
  ⟨(C2_prototype_probe exGoalCfg (by decide) (by decide)).2.2.1,
   (C2_prototype_probe exGoalCfg (by decide) (by decide)).2.2.2⟩

/-- C4.  For every configuration and word-character key `k` that is not
an own property, each of processHTML, processCSS, processJS and
processRaw returns the single-brace and double-brace placeholder
templates unchanged.  All four processors are total functions of the
embedding, so none can raise. -/
theorem C4_unresolved_pass_through (cfg : Config) (k : String)
    (hne : k.data ≠ []) (hw : ∀ c ∈ k.data, isWordChar c = true)
    (habs : hasOwn cfg k = false) :
    (processHTML cfg ("\x7b" ++ k ++ "\x7d") = "\x7b" ++ k ++ "\x7d" ∧
     processHTML cfg ("\x7b\x7b" ++ k ++ "\x7d\x7d") = "\x7b\x7b" ++ k ++ "\x7d\x7d") ∧
    (processCSS cfg ("\x7b" ++ k ++ "\x7d") = "\x7b" ++ k ++ "\x7d" ∧
     processCSS cfg ("\x7b\x7b" ++ k ++ "\x7d\x7d") = "\x7b\x7b" ++ k ++ "\x7d\x7d") ∧
    (processJS cfg ("\x7b" ++ k ++ "\x7d") = "\x7b" ++ k ++ "\x7d" ∧
     processJS cfg ("\x7b\x7b" ++ k ++ "\x7d\x7d") = "\x7b\x7b" ++ k ++ "\x7d\x7d") ∧
    (processRaw cfg ("\x7b" ++ k ++ "\x7d") = "\x7b" ++ k ++ "\x7d" ∧
     processRaw cfg ("\x7b\x7b" ++ k ++ "\x7d\x7d") = "\x7b\x7b" ++ k ++ "\x7d\x7d") :=
  ⟨processWithEscape_of_none cfg escapeHTML k hne hw
      (substFn_none_not_own cfg escapeHTML k habs),
   processWithEscape_of_none cfg escapeCSS k hne hw
      (substFn_none_not_own cfg escapeCSS k habs),
   processWithEscape_of_none cfg escapeJS k hne hw
      (substFn_none_not_own cfg escapeJS k habs),
   processWithEscape_of_none cfg (fun str => str) k hne hw
      (substFn_none_not_own cfg (fun str => str) k habs)⟩

/-- C4, witness: a missing key on the concrete goal configuration. -/
theorem C4_unresolved_pass_through_witness :
    processHTML exGoalCfg ("\x7b" ++ "missing" ++ "\x7d") = "\x7b" ++ "missing" ++ "\x7d" ∧
    processRaw exGoalCfg ("\x7b\x7b" ++ "missing" ++ "\x7d\x7d") =
      "\x7b\x7b" ++ "missing" ++ "\x7d\x7d" :=
  ⟨(C4_unresolved_pass_through exGoalCfg "missing" (by decide) (by decide)
      (by decide)).1.1,
   (C4_unresolved_pass_through exGoalCfg "missing" (by decide) (by decide)
      (by decide)).2.2.2.2⟩

/-- C10.  An own key explicitly bound to `undefined` behaves at the
public interface exactly like an absent key: every processor leaves
both placeholder forms verbatim, because safeGet's result is the value
`undefined` in both cases and processWithEscape keeps the match. -/
theorem C10_undefined_key_not_substituted (cfg : Config) (k : String)
    (hv : lookupCfg cfg k = some JSValue.undef)
    (hne : k.data ≠ []) (hw : ∀ c ∈ k.data, isWordChar c = true) :
    (processHTML cfg ("\x7b" ++ k ++ "\x7d") = "\x7b" ++ k ++ "\x7d" ∧
     processHTML cfg ("\x7b\x7b" ++ k ++ "\x7d\x7d") = "\x7b\x7b" ++ k ++ "\x7d\x7d") ∧
    (processCSS cfg ("\x7b" ++ k ++ "\x7d") = "\x7b" ++ k ++ "\x7d" ∧
     processCSS cfg ("\x7b\x7b" ++ k ++ "\x7d\x7d") = "\x7b\x7b" ++ k ++ "\x7d\x7d") ∧
    (processJS cfg ("\x7b" ++ k ++ "\x7d") = "\x7b" ++ k ++ "\x7d" ∧
     processJS cfg ("\x7b\x7b" ++ k ++ "\x7d\x7d") = "\x7b\x7b" ++ k ++ "\x7d\x7d") ∧
    (processRaw cfg ("\x7b" ++ k ++ "\x7d") = "\x7b" ++ k ++ "\x7d" ∧
     processRaw cfg ("\x7b\x7b" ++ k ++ "\x7d\x7d") = "\x7b\x7b" ++ k ++ "\x7d\x7d") :=
  ⟨processWithEscape_of_none cfg escapeHTML k hne hw
      (substFn_none_undef cfg escapeHTML k hv),
   processWithEscape_of_none cfg escapeCSS k hne hw
      (substFn_none_undef cfg escapeCSS k hv),
   processWithEscape_of_none cfg escapeJS k hne hw
      (substFn_none_undef cfg escapeJS k hv),
   processWithEscape_of_none cfg (fun str => str) k hne hw
      (substFn_none_undef cfg (fun str => str) k hv)⟩

/-- C10, witness: a key bound to `undefined` in a concrete
configuration. -/
theorem C10_undefined_key_witness :
    processHTML exUndefCfg ("\x7b" ++ "ghost" ++ "\x7d") = "\x7b" ++ "ghost" ++ "\x7d" ∧
    processJS exUndefCfg ("\x7b\x7b" ++ "ghost" ++ "\x7d\x7d") =
      "\x7b\x7b" ++ "ghost" ++ "\x7d\x7d" :=
  ⟨(C10_undefined_key_not_substituted exUndefCfg "ghost" (by decide) (by decide)
      (by decide)).1.1,
   (C10_undefined_key_not_substituted exUndefCfg "ghost" (by decide) (by decide)
      (by decide)).2.2.1.2⟩

/-- C5.  The five chained replacements of escapeHTML (ampersand first)
equal the intended one-pass per-character entity map, so ampersands
introduced by later replacements are never re-escaped; and the concrete
scenario renders `Member <Goal>` as `Member &lt;Goal&gt;` inside the
div. -/
theorem C5_escapeHTML_order :
    (∀ s : String, escapeHTML s = String.mk ((s.data.map htmlEscCharSpec).flatten)) ∧
    processHTML exGoalCfg "<div>\x7bgoalTitle\x7d</div>" =
      "<div>Member &lt;Goal&gt;</div>" :=
  ⟨escapeHTML_eq_spec, by decide⟩

/-- C6.  escapeCSS maps each character independently (it distributes
over concatenation), keeps every character of the whitelist
`[A-Za-z0-9#(),.\-\s%]` unchanged, replaces every character outside it
by backslash, lowercase hexadecimal code point and a trailing space,
and substitutes the all-whitelisted value `#1a1a2e` verbatim. -/
theorem C6_escapeCSS_whitelist :
    (∀ s t : String, escapeCSS (s ++ t) = escapeCSS s ++ escapeCSS t) ∧
    (∀ s : String, (∀ c ∈ s.data, isCSSAllowed c = true) → escapeCSS s = s) ∧
    (∀ c : Char, isCSSAllowed c = false →
      escapeCSS (String.mk [c]) = String.mk ('\\' :: ((toHex c.toNat).data ++ [' ']))) ∧
    processCSS exCssCfg ".c\x7bbackground:\x7bbackgroundColor\x7d\x7d" =
      ".c\x7bbackground:#1a1a2e\x7d" :=
  ⟨fun s t => by
    unfold escapeCSS
    rw [strData_append, escapeCSSL_append]
    rfl,
   escapeCSS_allowed, escapeCSS_disallowed_single, by decide⟩

/-- C6, witness: the whitelist case on `#1a1a2e` and the escape case on
`<`. -/
theorem C6_escapeCSS_witness :
    escapeCSS "#1a1a2e" = "#1a1a2e" ∧
    escapeCSS (String.mk ['<']) = String.mk ('\\' :: ((toHex '<'.toNat).data ++ [' '])) :=
  ⟨C6_escapeCSS_whitelist.2.1 "#1a1a2e" (by decide),
   C6_escapeCSS_whitelist.2.2.1 '<' (by decide)⟩

/-- C7.  The eight chained replacement passes of escapeJS equal the
intended one-pass scan (per-character map plus the `</` rewrite), so
backslashes inserted by earlier passes are never re-escaped by later
ones; concretely a single quote in the value yields a backslash-quote
and `</` yields `<\/` in the processJS output. -/
theorem C7_escapeJS_order :
    (∀ s : String, escapeJS s = String.mk (jsOnePass s.data)) ∧
    processJS exJsCfg "var t='\x7bq\x7d';" = "var t='it\\'s';" ∧
    processJS exJsCfg "\x7bx\x7d" = "<\\/script>" :=
  ⟨escapeJS_eq_onepass, by decide, by decide⟩

/-- C3, counterexample.  The claim says symlink-driven escapes fail
with a path-traversal error before any read.  With `/base/field.json` a
symlink to `/secret/creds`, loadFieldConfig raises no traversal error
and reads `/secret/creds`, a path outside the base directory:
resolution is lexical and never sees symlinks.  Moreover for the base
directory `/`, the descendant `/field.json` is wrongly rejected as
traversal (the `base + '/'` comparison degenerates to `//`) with no
read performed. -/
theorem C3_counterexample :
    (loadFieldConfigFS exSymlinkFS 5 "/base").2 =
      Except.error (LoadErr.parseError "Invalid JSON in field.json: Unexpected token") ∧
    LoadErr.parseError "Invalid JSON in field.json: Unexpected token" ≠
      LoadErr.traversal ∧
    (loadFieldConfigFS exSymlinkFS 5 "/base").1 =
      ["/base/field.json", "/secret/creds"] ∧
    validatePathWithinBase "/base" "/secret/creds" = false ∧
    (loadFieldConfigFS exSymlinkFS 5 "/").2 = Except.error LoadErr.traversal ∧
    (loadFieldConfigFS exSymlinkFS 5 "/").1 = [] ∧
    resolveFrom (resolvePath "/") "field.json" = "/field.json" ∧
    validatePathWithinBase "/" "/field.json" = false := by
  refine ⟨by rfl, by decide, by rfl, by decide, by rfl, by rfl, by rfl, by decide⟩

/-- C3, amended.  Both loaders resolve their fixed file names
lexically against the resolved directory and check containment before
any read; for every directory not resolving to the filesystem root the
check passes, so a path-traversal error is impossible there, and
validatePathWithinBase does reject lexically escaping `..` paths while
accepting true descendants.  Symlink-driven escapes are not detected
(see the counterexample). -/
theorem C3_amended_containment :
    (∀ (fs : FS (Except String JSON)) (fuel : Nat) (dir : String),
      normSegs (splitSegsL dir.data) ≠ [] →
      validatePathWithinBase (resolvePath dir)
        (resolveFrom (resolvePath dir) "field.json") = true ∧
      (loadFieldConfigFS fs fuel dir).2 ≠ Except.error LoadErr.traversal) ∧
    (∀ (fs : FS String) (fuel : Nat) (dir : String),
      normSegs (splitSegsL dir.data) ≠ [] →
      (loadTemplateFilesFS fs fuel dir).2 ≠ Except.error LoadErr.traversal) ∧
    validatePathWithinBase "/base" "/base/../../etc/passwd" = false ∧
    validatePathWithinBase "/base" "/base/sub/inner.json" = true :=
  ⟨fun fs fuel dir hnb =>
    ⟨validate_fixed_name dir "field.json" hnb (by decide) (by decide)
        (by constructor <;> decide),
     loadFieldConfigFS_no_traversal fs fuel dir hnb⟩,
   fun fs fuel dir hnb => loadTemplateFilesFS_no_traversal fs fuel dir hnb,
   by decide, by decide⟩

/-- C3, witness: the amended theorem at the concrete symlink filesystem
and base `/base`. -/
theorem C3_amended_containment_witness :
    (validatePathWithinBase (resolvePath "/base")
      (resolveFrom (resolvePath "/base") "field.json") = true ∧
    (loadFieldConfigFS exSymlinkFS 5 "/base").2 ≠ Except.error LoadErr.traversal) ∧
    (loadTemplateFilesFS ([] : FS String) 5 "/base").2 ≠
      Except.error LoadErr.traversal :=
  ⟨C3_amended_containment.1 exSymlinkFS 5 "/base" (by decide),
   C3_amended_containment.2.1 ([] : FS String) 5 "/base" (by decide)⟩

/-- C8, counterexample.  A `null` document has no `fields` member, yet
loadFieldConfig rejects it with a member-access type error rather than
the descriptive structural error; and an array-valued `globalConfig`
(a malformed mapping) passes the `typeof === 'object'` test and is
returned as-is instead of being defaulted to an empty mapping. -/
theorem C8_counterexample :
    loadFieldConfigPure (Except.ok JSON.null) =
      Except.error
        (LoadErr.typeError "Cannot read properties of null (reading 'fields')") ∧
    LoadErr.typeError "Cannot read properties of null (reading 'fields')" ≠
      LoadErr.structural "Invalid field.json: missing or invalid \"fields\" array" ∧
    loadFieldConfigPure exArrDoc =
      Except.ok (JSON.obj [("fields", JSON.arr []), ("globalConfig", JSON.arr []),
        ("variantConfig", JSON.obj [])]) ∧
    JSON.arr [] ≠ JSON.obj [] := by
  refine ⟨by rfl, by decide, by rfl, fun h => JSON.noConfusion h⟩

/-- C8, amended.  Parse failures surface as a distinct parse error
carrying the original message; every non-null document whose `fields`
member is falsy or not an array is rejected with the descriptive
structural error; and for documents with a valid `fields` array, a
`globalConfig` or `variantConfig` member that is falsy or not of JS
object type is returned as an empty mapping, the load succeeding. -/
theorem C8_amended_loader :
    (∀ msg : String, loadFieldConfigPure (Except.error msg) =
      Except.error (LoadErr.parseError ("Invalid JSON in field.json: " ++ msg))) ∧
    (∀ (doc : JSON) (fo : Option JSON), jsMember doc "fields" = Except.ok fo →
      (undefTruthy fo && isArrOpt fo) = false →
      loadFieldConfigPure (Except.ok doc) =
        Except.error
          (LoadErr.structural "Invalid field.json: missing or invalid \"fields\" array")) ∧
    (∀ (ms : List (String × JSON)) (l : List JSON),
      mLookup ms "fields" = some (JSON.arr l) →
      exceptIsOk (loadFieldConfigPure (Except.ok (JSON.obj ms))) = true ∧
      ((undefTruthy (mLookup ms "globalConfig") &&
          typeofObjOpt (mLookup ms "globalConfig")) = false →
        resultMember (loadFieldConfigPure (Except.ok (JSON.obj ms))) "globalConfig" =
          some (JSON.obj [])) ∧
      ((undefTruthy (mLookup ms "variantConfig") &&
          typeofObjOpt (mLookup ms "variantConfig")) = false →
        resultMember (loadFieldConfigPure (Except.ok (JSON.obj ms))) "variantConfig" =
          some (JSON.obj []))) := by
  refine ⟨fun msg => rfl, ?_, ?_⟩
  · intro doc fo hok hf
    rw [loadFieldConfigPure_ok_eq doc fo hok]
    rw [if_pos (bool_cond_of_and_false hf)]
  · intro ms l hfl
    have hok : jsMember (JSON.obj ms) "fields" = Except.ok (mLookup ms "fields") := rfl
    rw [hfl] at hok
    rw [loadFieldConfigPure_ok_eq _ _ hok]
    rw [if_neg (by simp [undefTruthy, jsTruthy, isArrOpt])]
    refine ⟨rfl, ?_, ?_⟩
    · intro hg
      rw [ensureCfgMember_obj ms "globalConfig", if_pos (bool_cond_of_and_false hg)]
      rw [ensureCfgMember_obj (setMember ms "globalConfig" (JSON.obj []))
        "variantConfig"]
      by_cases hvv : (!(undefTruthy (mLookup
          (setMember ms "globalConfig" (JSON.obj [])) "variantConfig")) ||
          !(typeofObjOpt (mLookup
            (setMember ms "globalConfig" (JSON.obj [])) "variantConfig"))) = true
      · rw [if_pos hvv, resultMember_ok_obj]
        rw [mLookup_set_other _ _ _ _ (by decide), mLookup_set_self]
      · rw [if_neg hvv, resultMember_ok_obj, mLookup_set_self]
    · intro hv
      have hset : mLookup (setMember ms "globalConfig" (JSON.obj [])) "variantConfig" =
          mLookup ms "variantConfig" := mLookup_set_other _ _ _ _ (by decide)
      by_cases hg : (!(undefTruthy (mLookup ms "globalConfig")) ||
          !(typeofObjOpt (mLookup ms "globalConfig"))) = true
      · rw [ensureCfgMember_obj ms "globalConfig", if_pos hg]
        rw [ensureCfgMember_obj (setMember ms "globalConfig" (JSON.obj []))
          "variantConfig"]
        rw [hset, if_pos (bool_cond_of_and_false hv)]
        rw [resultMember_ok_obj, mLookup_set_self]
      · rw [ensureCfgMember_obj ms "globalConfig", if_neg hg]
        rw [ensureCfgMember_obj ms "variantConfig",
          if_pos (bool_cond_of_and_false hv)]
        rw [resultMember_ok_obj, mLookup_set_self]

/-- C8, witness: the amended theorem at a parse failure, a string
`fields` member, and a document missing `globalConfig`. -/
theorem C8_amended_loader_witness :
    loadFieldConfigPure (Except.error "Unexpected token") =
      Except.error
        (LoadErr.parseError "Invalid JSON in field.json: Unexpected token") ∧
    loadFieldConfigPure (Except.ok (JSON.obj [("fields", JSON.str "nope")])) =
      Except.error
        (LoadErr.structural "Invalid field.json: missing or invalid \"fields\" array") ∧
    resultMember (loadFieldConfigPure (Except.ok (JSON.obj [("fields", JSON.arr [])])))
      "globalConfig" = some (JSON.obj []) :=
  ⟨C8_amended_loader.1 "Unexpected token",
   C8_amended_loader.2.1 (JSON.obj [("fields", JSON.str "nope")])
     (some (JSON.str "nope")) (by rfl) (by decide),
   (C8_amended_loader.2.2 [("fields", JSON.arr [])] [] (by rfl)).2.1 (by decide)⟩

/-- C9, code bug.  `currentColor` is in the named-color allow-list, but
the test compares `color.toLowerCase()` against the list entries, and
no lowercased string equals the mixed-case entry `currentColor` — so
every case variant of `currentColor` is rejected, contradicting the
case-insensitive acceptance the list entry was meant to provide.  The
other list entries are lowercase and behave case-insensitively, as
`red`/`RED` show; hex, rgb and hsl forms are accepted and arbitrary CSS
functions rejected. -/
theorem C9_currentColor_dead_entry :
    "currentColor" ∈ namedColors ∧
    isValidColor "currentColor" = false ∧
    isValidColor "currentcolor" = false ∧
    isValidColor "CURRENTCOLOR" = false ∧
    isValidColor "red" = true ∧
    isValidColor "RED" = true ∧
    isValidColor "#1a2b3c" = true ∧
    isValidColor "rgb(0, 0, 0)" = true ∧
    isValidColor "hsl(0, 0%, 0%)" = true ∧
    isValidColor "calc(1px)" = false := by
  refine ⟨by decide, by decide, by decide, by decide, by decide, by decide,
    by decide, by decide, by decide, by decide⟩
